import Mathlib

/-!
Verification development for the Event-Management-System repository
(`events_api_app`): a shallow embedding, in Lean 4, of the event
visibility resolver, the RSVP and Review ledgers, the RSVP aggregation
and the event listing filter, together with theorems settling the
frozen claims about them.

Modelling conventions:
- A user is identified by a `Nat` id.  A request viewer is an
  `Option Nat`: `none` is an anonymous caller (Django's AnonymousUser,
  `is_authenticated = False`), `some u` an authenticated user `u`.
- Database tables are Lean lists of row structures, in insertion order
  (primary keys ascending).  Django's `order_by` is modelled as a
  stable sort (`List.mergeSort`), `filter` as `List.filter`, and
  `update_or_create` / `get` + `save` as structural recursion over the
  row list that rewrites the first matching row in place.
- Timestamps are integers (`Int`); `auto_now_add` columns receive an
  explicit `now` argument at the call site.
- Python's `int(...)` builtin applied to the raw rating value is
  modelled by `pyInt` (optional surrounding whitespace, optional sign,
  decimal digits; a missing value — Python `None` — fails to parse).
  Python's `str.strip()` is modelled by `pyStrip`.
-/

namespace EMS

/-- RSVP status enumeration, from `RSVP.STATUS_CHOICES` in
`events_api_app/models.py`: `Going`, `Maybe`, `Not Going`. -/
inductive RSVPStatus where
  | Going
  | Maybe
  | NotGoing
deriving DecidableEq, Repr

/-- The stored character value of an RSVP status
(`STATUS_GOING = 'Going'`, `STATUS_MAYBE = 'Maybe'`,
`STATUS_NOT_GOING = 'Not Going'` in `models.py`). -/
def RSVPStatus.label : RSVPStatus → String
  | .Going => "Going"
  | .Maybe => "Maybe"
  | .NotGoing => "Not Going"

/-- Validation of a posted status string against `RSVP.STATUS_CHOICES`
(`RSVPSerializer.validate_status` in `serializers.py`, and the
`status not in dict(RSVP.STATUS_CHOICES)` check in
`frontend_views.rsvp_create_or_update`). -/
def parseStatus (s : String) : Option RSVPStatus :=
  if s = "Going" then some .Going
  else if s = "Maybe" then some .Maybe
  else if s = "Not Going" then some .NotGoing
  else none

/-- The `Event` model of `events_api_app/models.py`.  `organizer` is a
user id, `invited_users` the many-to-many invite list as a list of user
ids, `created_at` the `auto_now_add` timestamp. -/
structure Event where
  id : Nat
  title : String
  description : String
  organizer : Nat
  location : String
  start_time : Int
  end_time : Int
  is_public : Bool
  invited_users : List Nat
  created_at : Int
deriving DecidableEq, Repr

/-- The `RSVP` model row: `(event, user)` foreign keys, a status and an
`auto_now_add` creation timestamp.  `unique_together = (event, user)`. -/
structure RSVP where
  event : Nat
  user : Nat
  status : RSVPStatus
  created_at : Int
deriving DecidableEq, Repr

/-- The `Review` model row: `(event, user)` foreign keys, an integer
rating, a free-text comment and an `auto_now_add` creation timestamp.
`unique_together = (event, user)`. -/
structure Review where
  event : Nat
  user : Nat
  rating : Int
  comment : String
  created_at : Int
deriving DecidableEq, Repr

/-- The `invited_users` membership lookup used by the permission class.
`IsInvitedOrPublic.has_object_permission` evaluates
`user in obj.invited_users.all()` inside a `try`/`except`: the lookup
may fail (modelled by `Except.error`), in which case access is denied. -/
abbrev InvitedLookup := Except Unit (List Nat)

/-- Shallow embedding of `IsInvitedOrPublic.has_object_permission`
(`events_api_app/permissions.py`): public events are always allowed;
otherwise the caller must be authenticated, and is allowed when they
are the organizer or the (possibly failing) membership lookup finds
them among `invited_users`; a failing lookup denies access. -/
def has_object_permission (viewer : Option Nat) (e : Event)
    (invited : InvitedLookup) : Bool :=
  if e.is_public then
    true
  else
    match viewer with
    | none => false
    | some u =>
      if u = e.organizer then
        true
      else
        match invited with
        | .ok l => l.contains u
        | .error _ => false

/-- The visibility predicate `can_view(viewer, event)` of the spec:
`IsInvitedOrPublic.has_object_permission` with the membership lookup
reading the event's own `invited_users` relation (the non-failing
case; `frontend_views.event_detail_view` implements the same test
inline). -/
def can_view (viewer : Option Nat) (e : Event) : Bool :=
  has_object_permission viewer e (.ok e.invited_users)

/-- The inline visibility test guarding the RSVP actions
(`EventViewSet.rsvp` in `views.py` and
`frontend_views.rsvp_create_or_update`):
`not event.is_public and user != event.organizer and user not in
event.invited_users.all()` denies; this is the complement of that
condition for an authenticated user `u`. -/
def can_act (u : Nat) (e : Event) : Bool :=
  e.is_public || u = e.organizer || e.invited_users.contains u

/-- Errors surfaced by the RSVP ledger operations, following the
spec's taxonomy: `Forbidden` is the 403 branch, `InvalidStatus` the
400 branch of serializer validation, `NotFound` the missing-row 404. -/
inductive RsvpError where
  | Forbidden
  | InvalidStatus
  | NotFound
deriving DecidableEq, Repr

/-- Lookup of the RSVP row for an `(event, user)` pair, as
`RSVP.objects.filter(event=…, user=…).first()` /
`RSVP.objects.get(event=…, user=…)` under the uniqueness constraint. -/
def lookupRsvp (eid uid : Nat) (store : List RSVP) : Option RSVP :=
  store.find? (fun r => r.event = eid && r.user = uid)

/-- Shallow embedding of
`RSVP.objects.update_or_create(event=…, user=…, defaults={'status': …})`:
if a row with the key exists, its `status` field alone is overwritten in
place (`created_at` untouched) and the flag is `false`; otherwise a new
row with `created_at = now` is appended and the flag is `true`. -/
def rsvp_update_or_create (eid uid : Nat) (st : RSVPStatus) (now : Int) :
    List RSVP → List RSVP × Bool
  | [] => ([⟨eid, uid, st, now⟩], true)
  | r :: rs =>
    if r.event = eid ∧ r.user = uid then
      ({ r with status := st } :: rs, false)
    else
      (r :: (rsvp_update_or_create eid uid st now rs).1,
        (rsvp_update_or_create eid uid st now rs).2)

/-- Shallow embedding of the `EventViewSet.rsvp` action
(`POST /api/events/{id}/rsvp/`, `views.py`): deny with 403 when the
event is private and the caller is neither organizer nor invited;
reject an invalid status string with 400; otherwise upsert the
caller's RSVP and report whether a new row was created (201 vs 200).
The frontend mirror `rsvp_create_or_update` performs the same steps. -/
def set_rsvp (e : Event) (u : Nat) (statusStr : String) (now : Int)
    (store : List RSVP) : Except RsvpError (List RSVP × Bool) :=
  if !e.is_public && u != e.organizer && !e.invited_users.contains u then
    .error .Forbidden
  else
    match parseStatus statusStr with
    | none => .error .InvalidStatus
    | some st => .ok (rsvp_update_or_create e.id u st now store)

/-- One call to `set_rsvp`, as issued at the boundary: the resolved
event, the caller, the raw status string and the clock reading. -/
structure RsvpCall where
  event : Event
  user : Nat
  statusStr : String
  now : Int
deriving DecidableEq, Repr

/-- State transition of one boundary RSVP request: a rejected request
(403 or 400) leaves the ledger unchanged. -/
def rsvpStep (store : List RSVP) (c : RsvpCall) : List RSVP :=
  match set_rsvp c.event c.user c.statusStr c.now store with
  | .ok p => p.1
  | .error _ => store

/-- The ledger after a sequence of boundary RSVP requests. -/
def applyRsvps (store : List RSVP) (calls : List RsvpCall) : List RSVP :=
  calls.foldl rsvpStep store

/-- Whether a boundary RSVP request succeeds.  `set_rsvp` rejects only
on visibility or status validation, so success does not depend on the
ledger contents. -/
def rsvpCallOk (c : RsvpCall) : Bool :=
  can_act c.user c.event && (parseStatus c.statusStr).isSome

/-- The successful calls of a request sequence that target a given
`(event, user)` key. -/
def goodRsvpCalls (eid uid : Nat) (calls : List RsvpCall) : List RsvpCall :=
  calls.filter (fun c => rsvpCallOk c && c.event.id = eid && c.user = uid)

/-- Uniqueness invariant backing `unique_together = ('event', 'user')`
on `RSVP`: no two rows share the `(event, user)` key. -/
def RsvpUnique (store : List RSVP) : Prop :=
  store.Pairwise (fun a b => ¬(a.event = b.event ∧ a.user = b.user))

/-- In-place save of a new status on the fetched RSVP instance
(`RSVPSerializer(rsvp, data=…, partial=True)` followed by
`serializer.save()` in `EventViewSet.update_rsvp`): the first row
matching the key has its `status` field overwritten, nothing else
changes. -/
def rsvp_save_status (eid uid : Nat) (st : RSVPStatus) :
    List RSVP → List RSVP
  | [] => []
  | r :: rs =>
    if r.event = eid ∧ r.user = uid then
      { r with status := st } :: rs
    else
      r :: rsvp_save_status eid uid st rs

/-- Shallow embedding of the `EventViewSet.update_rsvp` action
(`PATCH /api/events/{id}/rsvp/{user_id}/`, `views.py`): 404 when no
RSVP row exists for the target user on the event, 403 unless the actor
is the RSVP owner or the event organizer, 400 on an invalid status,
else the existing row's `status` field is overwritten in place. -/
def update_rsvp (e : Event) (targetUid actor : Nat) (statusStr : String)
    (store : List RSVP) : Except RsvpError (List RSVP) :=
  match lookupRsvp e.id targetUid store with
  | none => .error .NotFound
  | some r =>
    if actor != r.user && actor != e.organizer then
      .error .Forbidden
    else
      match parseStatus statusStr with
      | none => .error .InvalidStatus
      | some st => .ok (rsvp_save_status e.id targetUid st store)

/-- Python's `str.strip()`: the string with leading and trailing
whitespace characters removed. -/
def pyStrip (s : String) : String :=
  String.mk
    (((s.toList.dropWhile Char.isWhitespace).reverse.dropWhile
        Char.isWhitespace).reverse)

/-- Decimal value of a nonempty all-digit character sequence; `none`
when the sequence is empty or contains a non-digit. -/
def digitsVal : List Char → Option Nat
  | [] => none
  | [c] => if c.isDigit then some (c.toNat - 48) else none
  | c :: c2 :: cs =>
    if c.isDigit then
      (digitsVal (c2 :: cs)).map (fun n => (c.toNat - 48) * 10 ^ (c2 :: cs).length + n)
    else
      none

/-- Python's `int(...)` builtin as applied to the posted rating value:
`None` (a missing POST field) raises and so fails to parse; a string is
stripped of surrounding whitespace and must then be an optional sign
followed by decimal digits. -/
def pyInt (v : Option String) : Option Int :=
  match v with
  | none => none
  | some s =>
    match (pyStrip s).toList with
    | '-' :: cs => (digitsVal cs).map (fun n => -(n : Int))
    | '+' :: cs => (digitsVal cs).map (fun n => (n : Int))
    | cs => (digitsVal cs).map (fun n => (n : Int))

/-- Errors surfaced by the review operations: `InvalidRating` is the
rating-validation failure, `IntegrityError` the database
unique-constraint violation raised by a blind duplicate insert. -/
inductive ReviewError where
  | InvalidRating
  | IntegrityError
deriving DecidableEq, Repr

/-- Lookup of the Review row for an `(event, user)` pair
(`Review.objects.filter(event=…, user=…).first()`). -/
def lookupReview (eid uid : Nat) (store : List Review) : Option Review :=
  store.find? (fun r => r.event = eid && r.user = uid)

/-- The update-if-exists-else-create sequence of
`frontend_views.post_review`: the first row matching the key has its
`rating` and `comment` overwritten in place (`created_at` untouched)
and the flag is `false`; otherwise `Review.objects.create` appends a
new row with `created_at = now` and the flag is `true`. -/
def review_upsert (eid uid : Nat) (rating : Int) (comment : String)
    (now : Int) : List Review → List Review × Bool
  | [] => ([⟨eid, uid, rating, comment, now⟩], true)
  | r :: rs =>
    if r.event = eid ∧ r.user = uid then
      ({ r with rating := rating, comment := comment } :: rs, false)
    else
      (r :: (review_upsert eid uid rating comment now rs).1,
        (review_upsert eid uid rating comment now rs).2)

/-- Shallow embedding of `frontend_views.post_review`: the caller is
authenticated (`login_required`) and the event already resolved
(`get_object_or_404`); the comment is stripped, the rating must parse
as an integer in `[1, 5]` or the call fails with `InvalidRating`, and
on success the caller's review is upserted.  No visibility check is
performed. -/
def post_review (e : Event) (u : Nat) (rating : Option String)
    (comment : String) (now : Int) (store : List Review) :
    Except ReviewError (List Review × Bool) :=
  match pyInt rating with
  | none => .error .InvalidRating
  | some n =>
    if n < 1 ∨ n > 5 then
      .error .InvalidRating
    else
      .ok (review_upsert e.id u n (pyStrip comment) now store)

/-- One call to `post_review`, as issued at the web boundary. -/
structure ReviewCall where
  event : Event
  user : Nat
  rating : Option String
  comment : String
  now : Int
deriving DecidableEq, Repr

/-- State transition of one boundary review post: a rejected post
(invalid rating) leaves the ledger unchanged. -/
def reviewStep (store : List Review) (c : ReviewCall) : List Review :=
  match post_review c.event c.user c.rating c.comment c.now store with
  | .ok p => p.1
  | .error _ => store

/-- The review ledger after a sequence of boundary review posts. -/
def applyReviews (store : List Review) (calls : List ReviewCall) :
    List Review :=
  calls.foldl reviewStep store

/-- Whether a boundary review post succeeds.  `post_review` rejects
only on rating validation, so success does not depend on the ledger. -/
def reviewCallOk (c : ReviewCall) : Bool :=
  match pyInt c.rating with
  | none => false
  | some n => if n < 1 ∨ n > 5 then false else true

/-- The successful review posts of a sequence that target a given
`(event, user)` key. -/
def goodReviewCalls (eid uid : Nat) (calls : List ReviewCall) :
    List ReviewCall :=
  calls.filter (fun c => reviewCallOk c && c.event.id = eid && c.user = uid)

/-- Uniqueness invariant backing `unique_together = ('event', 'user')`
on `Review`. -/
def ReviewUnique (store : List Review) : Prop :=
  store.Pairwise (fun a b => ¬(a.event = b.event ∧ a.user = b.user))

/-- The `(rating, stripped comment)` a successful review post stores;
`none` when the post is rejected. -/
def reviewCallVal (c : ReviewCall) : Option (Int × String) :=
  match pyInt c.rating with
  | none => none
  | some n => if n < 1 ∨ n > 5 then none else some (n, pyStrip c.comment)

/-- Shallow embedding of the POST branch of `EventViewSet.reviews`
(`POST /api/events/{id}/reviews/`, `views.py`): serializer validation
coerces the rating to an integer in `[1, 5]` (400 otherwise), then
`serializer.save(user=request.user)` unconditionally INSERTs a new
row; when a review for the `(event, user)` key already exists the
database unique constraint rejects the insert (`IntegrityError`) —
there is no update branch and no visibility check on this path. -/
def reviews_post (e : Event) (u : Nat) (rating : Option String)
    (comment : String) (now : Int) (store : List Review) :
    Except ReviewError (List Review) :=
  match pyInt rating with
  | none => .error .InvalidRating
  | some n =>
    if n < 1 ∨ n > 5 then
      .error .InvalidRating
    else
      if (lookupReview e.id u store).isSome then
        .error .IntegrityError
      else
        .ok (store ++ [⟨e.id, u, n, pyStrip comment, now⟩])

/-- Python dict update `counts[k] = counts.get(k, 0) + 1` on an
association list: increment the value at an existing key, or append
the key with value 1. -/
def bump (k : String) : List (String × Nat) → List (String × Nat)
  | [] => [(k, 1)]
  | (k2, v) :: rest =>
    if k2 = k then (k2, v + 1) :: rest else (k2, v) :: bump k rest

/-- The tallying loop of `events_list_view` / `event_detail_view`
(`frontend_views.py`): starting from
`{'Going': 0, 'Maybe': 0, 'Not_Going': 0}`, each RSVP row bumps the
normalized key — the stored label `'Not Going'` is mapped to the
space-free key `'Not_Going'`, any other label bumps its own key. -/
def tallyRsvps (rows : List RSVP) : List (String × Nat) :=
  rows.foldl
    (fun counts r =>
      if r.status.label = "Not Going" then
        bump "Not_Going" counts
      else
        bump r.status.label counts)
    [("Going", 0), ("Maybe", 0), ("Not_Going", 0)]

/-- The spec's `rsvp_counts(event)`: tally the statuses of the RSVP
rows belonging to the event (`event.rsvps.all().values('status')`). -/
def rsvp_counts (eid : Nat) (store : List RSVP) : List (String × Nat) :=
  tallyRsvps (store.filter (fun r => r.event = eid))

/-- The listing filter of `EventViewSet.get_queryset` /
`events_list_view`: an anonymous viewer sees an event iff it is
public; an authenticated viewer `u` sees it iff it is public, or `u`
is among `invited_users`, or `u` is the organizer
(`Q(is_public=True) | Q(invited_users=user) | Q(organizer=user)`). -/
def listedFor (viewer : Option Nat) (e : Event) : Bool :=
  match viewer with
  | none => e.is_public
  | some u => e.is_public || e.invited_users.contains u || e.organizer = u

/-- The comparator of `order_by('-created_at')`: an event sorts before
another when its `created_at` is at least as large. -/
def byCreatedAtDesc (a b : Event) : Bool :=
  b.created_at ≤ a.created_at

/-- The spec's `visible_events(viewer)`: the event table ordered by
`created_at` descending (`order_by('-created_at')`, modelled as a
stable sort over the insertion-ordered table) and then filtered to the
events the viewer may list.  Row-level filtering makes the result
duplicate-free by construction, which is what `.distinct()`
establishes after the SQL join. -/
def visible_events (viewer : Option Nat) (store : List Event) :
    List Event :=
  (store.mergeSort byCreatedAtDesc).filter (listedFor viewer)

/-- Errors surfaced by the event write operations. -/
inductive EventError where
  | ValidationError
  | TitleRequired
  | InvalidDatetime
deriving DecidableEq, Repr

/-- The effective time used by `EventSerializer.validate`
(`serializers.py`): the posted value, falling back to the instance's
stored value on a partial update (`data.get` with instance default). -/
def effectiveTime (posted fallback : Option Int) : Option Int :=
  match posted with
  | some v => some v
  | none => fallback

/-- Body of `EventSerializer.validate`: reject when both effective
times are present and `start >= end`. -/
def event_validate (postedStart postedEnd : Option Int)
    (instStart instEnd : Option Int) : Except EventError Unit :=
  match effectiveTime postedStart instStart,
      effectiveTime postedEnd instEnd with
  | some s, some e => if s ≥ e then .error .ValidationError else .ok ()
  | _, _ => .ok ()

/-- API event creation (`EventViewSet.perform_create` after
`EventSerializer.validate`): both times are required fields, the
validator must accept them, and the new event (organizer = caller) is
appended to the table. -/
def event_create (organizer : Nat) (newId : Nat) (title descr loc : String)
    (startT endT : Int) (isPublic : Bool) (invited : List Nat) (now : Int)
    (store : List Event) : Except EventError (List Event) :=
  match event_validate (some startT) (some endT) none none with
  | .error err => .error err
  | .ok _ =>
    .ok (store ++
      [⟨newId, title, descr, organizer, loc, startT, endT, isPublic,
        invited, now⟩])

/-- API event update (`EventSerializer.update` after
`EventSerializer.validate` with an instance): posted fields overwrite
the instance's, missing ones fall back to it; the effective time
window must still satisfy `start < end`. -/
def event_update (inst : Event) (postedStart postedEnd : Option Int) :
    Except EventError Event :=
  match event_validate postedStart postedEnd
      (some inst.start_time) (some inst.end_time) with
  | .error err => .error err
  | .ok _ =>
    .ok { inst with
          start_time := postedStart.getD inst.start_time,
          end_time := postedEnd.getD inst.end_time }

/-- Shallow embedding of `frontend_views.create_event_view` (POST):
the title must be nonempty after stripping, both datetime fields must
parse (`_parse_datetime_input` is the external Django parser, its
result modelled as an `Option Int`), `start_time` must be strictly
before `end_time`, and only then is the event created. -/
def create_event_view (organizer : Nat) (newId : Nat) (title : String)
    (startP endP : Option Int) (isPublic : Bool) (now : Int)
    (store : List Event) : Except EventError (List Event) :=
  if pyStrip title = "" then
    .error .TitleRequired
  else
    match startP, endP with
    | some s, some e =>
      if s ≥ e then
        .error .ValidationError
      else
        .ok (store ++
          [⟨newId, pyStrip title, "", organizer, "", s, e, isPublic, [], now⟩])
    | _, _ => .error .InvalidDatetime

/-- The stored time-window invariant of the spec:
`start_time < end_time` for every event in the table. -/
def EventTimesOk (store : List Event) : Prop :=
  ∀ e ∈ store, e.start_time < e.end_time

/-! Theorems. -/

/-- C1: for every viewer and event, `can_view` is true iff the event
is public, or the viewer is authenticated and is the organizer or an
invited user; in every other case (in particular an authenticated user
who is neither organizer nor invited on a private event) it is false,
and on a public event it is true for every viewer, anonymous
included. -/
theorem can_view_spec (viewer : Option Nat) (e : Event) :
    can_view viewer e = true ↔
      (e.is_public = true ∨
        ∃ u, viewer = some u ∧ (u = e.organizer ∨ u ∈ e.invited_users)) := by
  cases viewer with
  | none =>
    by_cases hp : e.is_public <;> simp [can_view, has_object_permission, hp]
  | some u =>
    by_cases hp : e.is_public <;> by_cases ho : u = e.organizer <;>
      simp [can_view, has_object_permission, hp, ho]

/-- C10: `has_object_permission` is a total predicate; an anonymous
caller on a private event is denied whatever the `invited_users`
membership lookup would return (the denial precedes the membership
check), and a failing membership lookup itself yields `false` rather
than an exception for any authenticated non-organizer caller. -/
theorem has_object_permission_total_safe :
    (∀ (e : Event) (inv : InvitedLookup), e.is_public = false →
        has_object_permission none e inv = false) ∧
    (∀ (u : Nat) (e : Event), e.is_public = false → u ≠ e.organizer →
        has_object_permission (some u) e (.error ()) = false) := by
  constructor
  · intro e inv hp
    simp [has_object_permission, hp]
  · intro u e hp ho
    simp [has_object_permission, hp, ho]

/-- Witness for C10 at a concrete private event: the anonymous caller
and a non-organizer caller with a failing membership lookup are both
denied. -/
theorem has_object_permission_total_safe_witness :
    has_object_permission none
        ⟨1, "E", "", 1, "", 0, 1, false, [], 0⟩ (.error ()) = false ∧
      has_object_permission (some 2)
        ⟨1, "E", "", 1, "", 0, 1, false, [], 0⟩ (.error ()) = false :=
  ⟨has_object_permission_total_safe.1
      ⟨1, "E", "", 1, "", 0, 1, false, [], 0⟩ (.error ()) rfl,
    has_object_permission_total_safe.2 2
      ⟨1, "E", "", 1, "", 0, 1, false, [], 0⟩ rfl (by decide)⟩

/-- Bumping a key already present in the association list leaves the
key sequence unchanged. -/
theorem bump_keys (k : String) (acc : List (String × Nat))
    (h : k ∈ acc.map Prod.fst) :
    (bump k acc).map Prod.fst = acc.map Prod.fst := by
  induction acc with
  | nil => simp at h
  | cons p rest ih =>
    by_cases hk : p.1 = k
    · simp [bump, hk]
    · simp only [List.map_cons] at h
      rcases List.mem_cons.1 h with h1 | h1
      · exact absurd h1.symm hk
      · simp [bump, hk, ih h1]

/-- Bumping a key already present increases the value total by one. -/
theorem bump_sum (k : String) (acc : List (String × Nat))
    (h : k ∈ acc.map Prod.fst) :
    ((bump k acc).map Prod.snd).sum = (acc.map Prod.snd).sum + 1 := by
  induction acc with
  | nil => simp at h
  | cons p rest ih =>
    by_cases hk : p.1 = k
    · simp [bump, hk]
      omega
    · simp only [List.map_cons] at h
      rcases List.mem_cons.1 h with h1 | h1
      · exact absurd h1.symm hk
      · simp [bump, hk, ih h1]
        omega

/-- The tallying loop keeps the key sequence of its accumulator and
adds one to the value total per row, provided the accumulator already
holds the three normalized keys. -/
theorem tally_foldl (rows : List RSVP) : ∀ (acc : List (String × Nat)),
    "Going" ∈ acc.map Prod.fst → "Maybe" ∈ acc.map Prod.fst →
    "Not_Going" ∈ acc.map Prod.fst →
    (rows.foldl
        (fun counts r =>
          if r.status.label = "Not Going" then bump "Not_Going" counts
          else bump r.status.label counts) acc).map Prod.fst
        = acc.map Prod.fst ∧
      ((rows.foldl
          (fun counts r =>
            if r.status.label = "Not Going" then bump "Not_Going" counts
            else bump r.status.label counts) acc).map Prod.snd).sum
        = (acc.map Prod.snd).sum + rows.length := by
  induction rows with
  | nil =>
    intro acc _ _ _
    simp
  | cons r rows ih =>
    intro acc h1 h2 h3
    obtain ⟨k, hk, heq⟩ : ∃ k, k ∈ acc.map Prod.fst ∧
        (if r.status.label = "Not Going" then bump "Not_Going" acc
          else bump r.status.label acc) = bump k acc := by
      cases r.status with
      | Going =>
        refine ⟨"Going", h1, ?_⟩
        simp only [RSVPStatus.label]
        rw [if_neg (by decide)]
      | Maybe =>
        refine ⟨"Maybe", h2, ?_⟩
        simp only [RSVPStatus.label]
        rw [if_neg (by decide)]
      | NotGoing =>
        refine ⟨"Not_Going", h3, ?_⟩
        simp [RSVPStatus.label]
    rw [List.foldl_cons, heq]
    have hkeys := bump_keys k acc hk
    have hsum := bump_sum k acc hk
    have hrec := ih (bump k acc) (hkeys ▸ h1) (hkeys ▸ h2) (hkeys ▸ h3)
    refine ⟨hrec.1.trans hkeys, ?_⟩
    rw [hrec.2, hsum]
    simp
    omega

/-- C6: `rsvp_counts` always returns exactly the three normalized keys
`Going`, `Maybe`, `Not_Going` — each present even when its count is
zero, the stored label `"Not Going"` being mapped to the space-free
`NotGoing` key — and the three values sum to the total number of RSVP
rows of the event. -/
theorem rsvp_counts_spec (eid : Nat) (store : List RSVP) :
    (rsvp_counts eid store).map Prod.fst = ["Going", "Maybe", "Not_Going"]
      ∧ ((rsvp_counts eid store).map Prod.snd).sum
        = (store.filter (fun r => r.event = eid)).length := by
  have h := tally_foldl (store.filter (fun r => r.event = eid))
    [("Going", 0), ("Maybe", 0), ("Not_Going", 0)]
    (by simp) (by simp) (by simp)
  unfold rsvp_counts tallyRsvps
  exact ⟨by simpa using h.1, by simpa using h.2⟩

/-- Transitivity of the `order_by('-created_at')` comparator. -/
theorem byCreatedAtDesc_trans (a b c : Event) :
    byCreatedAtDesc a b = true → byCreatedAtDesc b c = true →
    byCreatedAtDesc a c = true := by
  simp only [byCreatedAtDesc, decide_eq_true_eq]
  omega

/-- Totality of the `order_by('-created_at')` comparator. -/
theorem byCreatedAtDesc_total (a b : Event) :
    (byCreatedAtDesc a b || byCreatedAtDesc b a) = true := by
  simp only [byCreatedAtDesc, Bool.or_eq_true, decide_eq_true_eq]
  omega

/-- C5: `visible_events(viewer)` contains exactly the public events
for an anonymous viewer, and for an authenticated viewer the
deduplicated union of public events, events the viewer is invited to,
and events the viewer organizes; the result is ordered by `created_at`
descending, and events tied on `created_at` keep their insertion
(table) order. -/
theorem visible_events_spec (viewer : Option Nat) (store : List Event) :
    (∀ e, e ∈ visible_events viewer store ↔
        e ∈ store ∧
          match viewer with
          | none => e.is_public = true
          | some u =>
            e.is_public = true ∨ u ∈ e.invited_users ∨ e.organizer = u)
      ∧ (visible_events viewer store).Pairwise
          (fun a b => b.created_at ≤ a.created_at)
      ∧ (∀ a b : Event, a.created_at = b.created_at →
          [a, b].Sublist store → listedFor viewer a = true →
          listedFor viewer b = true →
          [a, b].Sublist (visible_events viewer store)) := by
  refine ⟨?_, ?_, ?_⟩
  · intro e
    rw [visible_events, List.mem_filter,
      (List.mergeSort_perm store byCreatedAtDesc).mem_iff]
    cases viewer with
    | none => simp [listedFor]
    | some u =>
      simp [listedFor]
      tauto
  · have hs := List.sorted_mergeSort byCreatedAtDesc_trans byCreatedAtDesc_total store
    have hf : (visible_events viewer store).Pairwise
        (fun a b => byCreatedAtDesc a b = true) :=
      List.Pairwise.sublist
        (List.filter_sublist (store.mergeSort byCreatedAtDesc)) hs
    exact hf.imp (fun h => by simpa [byCreatedAtDesc] using h)
  · intro a b hab hsub ha hb
    have hpair : ([a, b] : List Event).Pairwise
        (fun x y => byCreatedAtDesc x y = true) := by
      simp [byCreatedAtDesc, hab]
    have h1 : ([a, b] : List Event).Sublist (store.mergeSort byCreatedAtDesc) :=
      List.sublist_mergeSort byCreatedAtDesc_trans byCreatedAtDesc_total hpair hsub
    have h2 := List.Sublist.filter (listedFor viewer) h1
    rwa [show ([a, b] : List Event).filter (listedFor viewer) = [a, b] by
      simp [ha, hb]] at h2

/-- Witness for C5 at a concrete table: two public events tied on
`created_at` both appear, in insertion order, in the anonymous listing. -/
theorem visible_events_spec_witness :
    [(⟨1, "A", "", 1, "", 0, 1, true, [], 5⟩ : Event),
      ⟨2, "B", "", 1, "", 0, 1, true, [], 5⟩].Sublist
      (visible_events none
        [⟨1, "A", "", 1, "", 0, 1, true, [], 5⟩,
          ⟨2, "B", "", 1, "", 0, 1, true, [], 5⟩]) :=
  (visible_events_spec none
      [⟨1, "A", "", 1, "", 0, 1, true, [], 5⟩,
        ⟨2, "B", "", 1, "", 0, 1, true, [], 5⟩]).2.2
    ⟨1, "A", "", 1, "", 0, 1, true, [], 5⟩
    ⟨2, "B", "", 1, "", 0, 1, true, [], 5⟩
    rfl (by decide) (by decide) (by decide)

/-- After `rsvp_update_or_create`, the row at the upserted key is the
old row with only its `status` overwritten when one existed, and a
fresh row stamped `now` otherwise. -/
theorem lookupRsvp_uoc_self (eid uid : Nat) (st : RSVPStatus) (now : Int)
    (store : List RSVP) :
    lookupRsvp eid uid (rsvp_update_or_create eid uid st now store).1 =
      some (match lookupRsvp eid uid store with
            | some r => { r with status := st }
            | none => ⟨eid, uid, st, now⟩) := by
  induction store with
  | nil => simp [lookupRsvp, rsvp_update_or_create]
  | cons r rs ih =>
    by_cases h : r.event = eid ∧ r.user = uid
    · simp [lookupRsvp, rsvp_update_or_create, h, h.1, h.2, List.find?_cons]
    · have hp : (r.event = eid && r.user = uid) = false := by
        cases hb : (r.event = eid && r.user = uid)
        · rfl
        · exact absurd (by simpa using hb) h
      simp [lookupRsvp, rsvp_update_or_create, h, hp, List.find?_cons] at ih ⊢
      exact ih

/-- `rsvp_update_or_create` does not disturb the row at any other
key. -/
theorem lookupRsvp_uoc_other (eid uid e2 u2 : Nat) (st : RSVPStatus)
    (now : Int) (store : List RSVP) (h : ¬(e2 = eid ∧ u2 = uid)) :
    lookupRsvp e2 u2 (rsvp_update_or_create eid uid st now store).1 =
      lookupRsvp e2 u2 store := by
  induction store with
  | nil =>
    have hp : ((eid : Nat) = e2 && (uid : Nat) = u2) = false := by
      cases hb : ((eid : Nat) = e2 && (uid : Nat) = u2)
      · rfl
      · have hb2 : eid = e2 ∧ uid = u2 := by simpa using hb
        exact absurd ⟨hb2.1.symm, hb2.2.symm⟩ h
    simp [lookupRsvp, rsvp_update_or_create, List.find?_cons, hp]
  | cons r rs ih =>
    by_cases h1 : r.event = eid ∧ r.user = uid
    · have hp : (r.event = e2 && r.user = u2) = false := by
        cases hb : (r.event = e2 && r.user = u2)
        · rfl
        · have hb2 : r.event = e2 ∧ r.user = u2 := by simpa using hb
          exact absurd ⟨hb2.1.symm.trans h1.1, hb2.2.symm.trans h1.2⟩ h
      simp only [rsvp_update_or_create, if_pos h1]
      simp [lookupRsvp, List.find?_cons, hp]
    · cases hp : (r.event = e2 && r.user = u2) <;>
        simp [lookupRsvp, rsvp_update_or_create, h1, hp,
          List.find?_cons] at ih ⊢ <;>
        exact ih

/-- The created flag of `rsvp_update_or_create` is true exactly when
no row with the key existed. -/
theorem rsvp_uoc_created (eid uid : Nat) (st : RSVPStatus) (now : Int)
    (store : List RSVP) :
    (rsvp_update_or_create eid uid st now store).2 =
      !(lookupRsvp eid uid store).isSome := by
  induction store with
  | nil => simp [lookupRsvp, rsvp_update_or_create]
  | cons r rs ih =>
    by_cases h : r.event = eid ∧ r.user = uid
    · simp [lookupRsvp, rsvp_update_or_create, h, h.1, h.2, List.find?_cons]
    · have hp : (r.event = eid && r.user = uid) = false := by
        cases hb : (r.event = eid && r.user = uid)
        · rfl
        · exact absurd (by simpa using hb) h
      simp [lookupRsvp, rsvp_update_or_create, h, hp, List.find?_cons] at ih ⊢
      exact ih

/-- Every row of an upserted ledger either carries the upserted key or
was already present. -/
theorem rsvp_uoc_mem (eid uid : Nat) (st : RSVPStatus) (now : Int)
    (store : List RSVP) :
    ∀ x ∈ (rsvp_update_or_create eid uid st now store).1,
      (x.event = eid ∧ x.user = uid) ∨ x ∈ store := by
  induction store with
  | nil =>
    intro x hx
    simp only [rsvp_update_or_create, List.mem_singleton] at hx
    subst hx
    exact Or.inl ⟨rfl, rfl⟩
  | cons r rs ih =>
    intro x hx
    by_cases h : r.event = eid ∧ r.user = uid
    · simp only [rsvp_update_or_create, if_pos h] at hx
      rcases List.mem_cons.1 hx with h1 | h1
      · subst h1
        exact Or.inl ⟨h.1, h.2⟩
      · exact Or.inr (List.mem_cons_of_mem _ h1)
    · simp only [rsvp_update_or_create, if_neg h] at hx
      rcases List.mem_cons.1 hx with h1 | h1
      · subst h1
        exact Or.inr (List.mem_cons_self _ _)
      · rcases ih x h1 with h2 | h2
        · exact Or.inl h2
        · exact Or.inr (List.mem_cons_of_mem _ h2)

/-- `rsvp_update_or_create` preserves the `(event, user)` uniqueness
invariant of the RSVP table. -/
theorem rsvp_uoc_unique (eid uid : Nat) (st : RSVPStatus) (now : Int)
    (store : List RSVP) (h : RsvpUnique store) :
    RsvpUnique (rsvp_update_or_create eid uid st now store).1 := by
  induction store with
  | nil => simp [rsvp_update_or_create, RsvpUnique]
  | cons r rs ih =>
    simp only [RsvpUnique, List.pairwise_cons] at h
    by_cases h1 : r.event = eid ∧ r.user = uid
    · simp only [RsvpUnique, rsvp_update_or_create, if_pos h1,
        List.pairwise_cons]
      exact ⟨fun x hx => h.1 x hx, h.2⟩
    · simp only [RsvpUnique, rsvp_update_or_create, if_neg h1,
        List.pairwise_cons]
      refine ⟨fun x hx => ?_, ih h.2⟩
      rcases rsvp_uoc_mem eid uid st now rs x hx with h2 | h2
      · exact fun hc => h1 ⟨hc.1.trans h2.1, hc.2.trans h2.2⟩
      · exact h.1 x h2

/-- The 403 guard of the `rsvp` action is exactly the complement of
`can_act`. -/
theorem set_rsvp_guard (e : Event) (u : Nat) :
    (!e.is_public && u != e.organizer && !e.invited_users.contains u) =
      !can_act u e := by
  cases hpub : e.is_public <;> by_cases ho : u = e.organizer <;>
    by_cases hc : u ∈ e.invited_users <;>
    simp [can_act, hpub, ho, hc]

/-- A permitted caller with a valid status string reaches the upsert. -/
theorem set_rsvp_ok (e : Event) (u : Nat) (str : String) (st : RSVPStatus)
    (now : Int) (store : List RSVP) (hok : can_act u e = true)
    (hst : parseStatus str = some st) :
    set_rsvp e u str now store =
      .ok (rsvp_update_or_create e.id u st now store) := by
  have hg : (!e.is_public && u != e.organizer &&
      !e.invited_users.contains u) = false := by
    rw [set_rsvp_guard, hok]
    rfl
  unfold set_rsvp
  rw [hg, hst]
  simp

/-- A caller failing the visibility rule receives 403. -/
theorem set_rsvp_forbidden (e : Event) (u : Nat) (str : String) (now : Int)
    (store : List RSVP) (hnok : can_act u e = false) :
    set_rsvp e u str now store = .error .Forbidden := by
  have hg : (!e.is_public && u != e.organizer &&
      !e.invited_users.contains u) = true := by
    rw [set_rsvp_guard, hnok]
    rfl
  unfold set_rsvp
  rw [hg]
  simp

/-- A rejected RSVP request leaves the ledger unchanged. -/
theorem rsvpStep_of_bad (store : List RSVP) (c : RsvpCall)
    (hc : rsvpCallOk c = false) : rsvpStep store c = store := by
  simp only [rsvpCallOk, Bool.and_eq_false_iff] at hc
  rcases hc with hc | hc
  · unfold rsvpStep
    rw [set_rsvp_forbidden _ _ _ _ _ hc]
  · have hg : parseStatus c.statusStr = none := by
      cases hps : parseStatus c.statusStr
      · rfl
      · rw [hps] at hc
        simp at hc
    unfold rsvpStep set_rsvp
    cases hguard : (!c.event.is_public && c.user != c.event.organizer &&
        !c.event.invited_users.contains c.user) <;> simp [hg]

/-- A successful RSVP request replaces the ledger by the upserted
one. -/
theorem rsvpStep_of_ok (store : List RSVP) (c : RsvpCall)
    (st : RSVPStatus) (hok : can_act c.user c.event = true)
    (hst : parseStatus c.statusStr = some st) :
    rsvpStep store c =
      (rsvp_update_or_create c.event.id c.user st c.now store).1 := by
  rw [rsvpStep, set_rsvp_ok c.event c.user c.statusStr st c.now store hok hst]

/-- After any sequence of boundary RSVP requests, the status stored at
a key is the one of the last successful request on that key, and is
untouched when no successful request targeted the key. -/
theorem applyRsvps_lookup (eid uid : Nat) (calls : List RsvpCall) :
    ∀ (store : List RSVP),
    (lookupRsvp eid uid (applyRsvps store calls)).map RSVP.status =
      match (goodRsvpCalls eid uid calls).getLast? with
      | some c => parseStatus c.statusStr
      | none => (lookupRsvp eid uid store).map RSVP.status := by
  induction calls with
  | nil =>
    intro store
    simp [applyRsvps, goodRsvpCalls]
  | cons c cs ih =>
    intro store
    have hstep : applyRsvps store (c :: cs) =
        applyRsvps (rsvpStep store c) cs := by
      simp [applyRsvps]
    rw [hstep]
    by_cases hc : (rsvpCallOk c && c.event.id = eid && c.user = uid) = true
    · have hgood : goodRsvpCalls eid uid (c :: cs) =
          c :: goodRsvpCalls eid uid cs := by
        simp [goodRsvpCalls, List.filter_cons, hc]
      rw [hgood, ih (rsvpStep store c), List.getLast?_cons]
      have hok : rsvpCallOk c = true := by
        simp only [Bool.and_eq_true] at hc
        exact hc.1.1
      have hkey : c.event.id = eid ∧ c.user = uid := by
        simp only [Bool.and_eq_true, decide_eq_true_eq] at hc
        exact ⟨hc.1.2, hc.2⟩
      obtain ⟨st, hst⟩ : ∃ st, parseStatus c.statusStr = some st := by
        simp only [rsvpCallOk, Bool.and_eq_true, Option.isSome_iff_exists]
          at hok
        exact hok.2
      have hca : can_act c.user c.event = true := by
        simp only [rsvpCallOk, Bool.and_eq_true] at hok
        exact hok.1
      cases hgl : (goodRsvpCalls eid uid cs).getLast? with
      | some c2 => simp [hgl]
      | none =>
        simp only [hgl, Option.getD_none]
        rw [rsvpStep_of_ok store c st hca hst, hkey.1, hkey.2,
          lookupRsvp_uoc_self]
        rw [hst]
        cases lookupRsvp eid uid store <;> rfl
    · have hgood : goodRsvpCalls eid uid (c :: cs) =
          goodRsvpCalls eid uid cs := by
        have hcf : (rsvpCallOk c && c.event.id = eid && c.user = uid)
            = false := Bool.eq_false_iff.2 hc
        simp [goodRsvpCalls, List.filter_cons, hcf]
      rw [hgood, ih (rsvpStep store c)]
      cases hgl : (goodRsvpCalls eid uid cs).getLast? with
      | some c2 => simp [hgl]
      | none =>
        simp only [hgl]
        cases hok : rsvpCallOk c with
        | false => rw [rsvpStep_of_bad store c hok]
        | true =>
          obtain ⟨st, hst⟩ : ∃ st, parseStatus c.statusStr = some st := by
            simp only [rsvpCallOk, Bool.and_eq_true,
              Option.isSome_iff_exists] at hok
            exact hok.2
          have hca : can_act c.user c.event = true := by
            simp only [rsvpCallOk, Bool.and_eq_true] at hok
            exact hok.1
          have hkey : ¬(eid = c.event.id ∧ uid = c.user) := by
            intro hk
            apply hc
            simp [hok, hk.1.symm, hk.2.symm]
          rw [rsvpStep_of_ok store c st hca hst,
            lookupRsvp_uoc_other _ _ _ _ _ _ _ hkey]

/-- When no row carries the key, the upsert appends a fresh row with
`created_at = now` at the end of the table. -/
theorem rsvp_uoc_of_none (eid uid : Nat) (st : RSVPStatus) (now : Int)
    (store : List RSVP) (h : lookupRsvp eid uid store = none) :
    rsvp_update_or_create eid uid st now store =
      (store ++ [⟨eid, uid, st, now⟩], true) := by
  induction store with
  | nil => simp [rsvp_update_or_create]
  | cons r rs ih =>
    simp only [lookupRsvp, List.find?_cons] at h
    cases hb : (r.event = eid && r.user = uid) with
    | true =>
      simp [hb] at h
    | false =>
      simp only [hb] at h
      have hnp : ¬(r.event = eid ∧ r.user = uid) := by
        intro hc
        rw [hc.1, hc.2] at hb
        simp at hb
      have ih2 := ih h
      simp only [rsvp_update_or_create, if_neg hnp, ih2]
      simp

/-- The whole-ledger transition of a boundary RSVP request keeps the
uniqueness invariant. -/
theorem rsvpStep_unique (store : List RSVP) (c : RsvpCall)
    (h : RsvpUnique store) : RsvpUnique (rsvpStep store c) := by
  unfold rsvpStep
  cases hres : set_rsvp c.event c.user c.statusStr c.now store with
  | error _ => exact h
  | ok p =>
    unfold set_rsvp at hres
    by_cases hg : (!c.event.is_public && c.user != c.event.organizer &&
        !c.event.invited_users.contains c.user) = true
    · rw [if_pos hg] at hres
      cases hres
    · rw [if_neg hg] at hres
      cases hst : parseStatus c.statusStr with
      | none =>
        rw [hst] at hres
        cases hres
      | some st =>
        rw [hst] at hres
        cases hres
        exact rsvp_uoc_unique _ _ _ _ _ h

/-- After any sequence of boundary RSVP requests the ledger still
satisfies the `(event, user)` uniqueness invariant. -/
theorem applyRsvps_unique (calls : List RsvpCall) :
    ∀ (store : List RSVP), RsvpUnique store →
      RsvpUnique (applyRsvps store calls) := by
  induction calls with
  | nil =>
    intro store h
    exact h
  | cons c cs ih =>
    intro store h
    have hstep : applyRsvps store (c :: cs) =
        applyRsvps (rsvpStep store c) cs := by
      simp [applyRsvps]
    rw [hstep]
    exact ih _ (rsvpStep_unique store c h)

/-- Under the uniqueness invariant, at most one row of the table
matches any `(event, user)` key. -/
theorem rsvp_unique_filter_le_one (store : List RSVP) (h : RsvpUnique store)
    (eid uid : Nat) :
    (store.filter (fun r => r.event = eid && r.user = uid)).length ≤ 1 := by
  induction store with
  | nil => simp
  | cons r rs ih =>
    simp only [RsvpUnique, List.pairwise_cons] at h
    by_cases hp : (r.event = eid && r.user = uid) = true
    · have hkey : r.event = eid ∧ r.user = uid := by simpa using hp
      have hrest : rs.filter (fun r => r.event = eid && r.user = uid) = [] := by
        rw [List.filter_eq_nil_iff]
        intro x hx hc
        have hc2 : x.event = eid ∧ x.user = uid := by simpa using hc
        exact h.1 x hx
          ⟨hkey.1.trans hc2.1.symm, hkey.2.trans hc2.2.symm⟩
      simp [List.filter_cons, hp, hrest]
    · have hpf : (r.event = eid && r.user = uid) = false :=
        Bool.eq_false_iff.2 hp
      simp only [List.filter_cons, hpf]
      simp only [Bool.false_eq_true, if_false]
      exact ih h.2

/-- C2: `set_rsvp` is an upsert keyed by `(event, user)`.  After any
sequence of boundary RSVP requests the table is key-unique, at most
one row exists per pair, and the stored status is the one of the most
recent successful request for the pair.  A single permitted request
with a valid status overwrites only the status of an existing row
(`created_at` untouched) reporting `created = false` (200), and
appends a fresh row stamped `now` reporting `created = true` (201)
when no row existed. -/
theorem set_rsvp_spec (store : List RSVP) (hU : RsvpUnique store) :
    (∀ calls, RsvpUnique (applyRsvps store calls)) ∧
    (∀ calls eid uid,
        ((applyRsvps store calls).filter
            (fun r => r.event = eid && r.user = uid)).length ≤ 1) ∧
    (∀ calls eid uid c,
        (goodRsvpCalls eid uid calls).getLast? = some c →
        (lookupRsvp eid uid (applyRsvps store calls)).map RSVP.status =
          parseStatus c.statusStr) ∧
    (∀ (e : Event) (u : Nat) (str : String) (st : RSVPStatus) (now : Int),
        parseStatus str = some st → can_act u e = true →
        (∀ r, lookupRsvp e.id u store = some r →
            set_rsvp e u str now store =
              .ok ((rsvp_update_or_create e.id u st now store).1, false) ∧
            lookupRsvp e.id u (rsvp_update_or_create e.id u st now store).1 =
              some { r with status := st }) ∧
        (lookupRsvp e.id u store = none →
            set_rsvp e u str now store =
              .ok (store ++ [⟨e.id, u, st, now⟩], true))) := by
  refine ⟨fun calls => applyRsvps_unique calls store hU,
    fun calls eid uid =>
      rsvp_unique_filter_le_one _ (applyRsvps_unique calls store hU) eid uid,
    fun calls eid uid c hlast => ?_, fun e u str st now hst hok => ?_⟩
  · rw [applyRsvps_lookup eid uid calls store, hlast]
  · constructor
    · intro r hr
      refine ⟨?_, ?_⟩
      · rw [set_rsvp_ok e u str st now store hok hst]
        have hcreated : (rsvp_update_or_create e.id u st now store).2 =
            false := by
          rw [rsvp_uoc_created, hr]
          rfl
        rw [← hcreated]
      · rw [lookupRsvp_uoc_self, hr]
    · intro hnone
      rw [set_rsvp_ok e u str st now store hok hst,
        rsvp_uoc_of_none e.id u st now store hnone]

/-- Witness for C2 on a concrete run: starting from an empty ledger, a
user RSVPs `Going` then `Maybe` to the same public event; the final
ledger holds one row whose status is `Maybe`, and the replayed single
calls report `created = true` then `created = false` with `created_at`
preserved. -/
theorem set_rsvp_spec_witness :
    (lookupRsvp 1 2 (applyRsvps []
        [⟨⟨1, "E", "", 1, "", 0, 1, true, [], 0⟩, 2, "Going", 10⟩,
          ⟨⟨1, "E", "", 1, "", 0, 1, true, [], 0⟩, 2, "Maybe", 20⟩])).map
        RSVP.status = parseStatus "Maybe" ∧
      set_rsvp ⟨1, "E", "", 1, "", 0, 1, true, [], 0⟩ 2 "Going" 10 [] =
        .ok ([⟨1, 2, .Going, 10⟩], true) ∧
      set_rsvp ⟨1, "E", "", 1, "", 0, 1, true, [], 0⟩ 2 "Maybe" 20
          [⟨1, 2, .Going, 10⟩] =
        .ok ([⟨1, 2, .Maybe, 10⟩], false) := by
  refine ⟨(set_rsvp_spec [] (by simp [RsvpUnique])).2.2.1
      [⟨⟨1, "E", "", 1, "", 0, 1, true, [], 0⟩, 2, "Going", 10⟩,
        ⟨⟨1, "E", "", 1, "", 0, 1, true, [], 0⟩, 2, "Maybe", 20⟩]
      1 2 ⟨⟨1, "E", "", 1, "", 0, 1, true, [], 0⟩, 2, "Maybe", 20⟩
      (by decide), ?_, ?_⟩
  · exact ((set_rsvp_spec [] (by simp [RsvpUnique])).2.2.2
      ⟨1, "E", "", 1, "", 0, 1, true, [], 0⟩ 2 "Going" .Going 10
      (by decide) (by decide)).2 (by decide)
  · have h := ((set_rsvp_spec [⟨1, 2, .Going, 10⟩]
        (by simp [RsvpUnique])).2.2.2
      ⟨1, "E", "", 1, "", 0, 1, true, [], 0⟩ 2 "Maybe" .Maybe 20
      (by decide) (by decide)).1 ⟨1, 2, .Going, 10⟩ (by decide)
    rw [h.1]
    rfl

/-- After `review_upsert`, the row at the upserted key is the old row
with only `rating` and `comment` overwritten when one existed, and a
fresh row stamped `now` otherwise. -/
theorem lookupReview_ru_self (eid uid : Nat) (n : Int) (cm : String)
    (now : Int) (store : List Review) :
    lookupReview eid uid (review_upsert eid uid n cm now store).1 =
      some (match lookupReview eid uid store with
            | some r => { r with rating := n, comment := cm }
            | none => ⟨eid, uid, n, cm, now⟩) := by
  induction store with
  | nil => simp [lookupReview, review_upsert]
  | cons r rs ih =>
    by_cases h : r.event = eid ∧ r.user = uid
    · simp [lookupReview, review_upsert, h, h.1, h.2, List.find?_cons]
    · have hp : (r.event = eid && r.user = uid) = false := by
        cases hb : (r.event = eid && r.user = uid)
        · rfl
        · exact absurd (by simpa using hb) h
      simp [lookupReview, review_upsert, h, hp, List.find?_cons] at ih ⊢
      exact ih

/-- `review_upsert` does not disturb the row at any other key. -/
theorem lookupReview_ru_other (eid uid e2 u2 : Nat) (n : Int) (cm : String)
    (now : Int) (store : List Review) (h : ¬(e2 = eid ∧ u2 = uid)) :
    lookupReview e2 u2 (review_upsert eid uid n cm now store).1 =
      lookupReview e2 u2 store := by
  induction store with
  | nil =>
    have hp : ((eid : Nat) = e2 && (uid : Nat) = u2) = false := by
      cases hb : ((eid : Nat) = e2 && (uid : Nat) = u2)
      · rfl
      · have hb2 : eid = e2 ∧ uid = u2 := by simpa using hb
        exact absurd ⟨hb2.1.symm, hb2.2.symm⟩ h
    simp [lookupReview, review_upsert, List.find?_cons, hp]
  | cons r rs ih =>
    by_cases h1 : r.event = eid ∧ r.user = uid
    · have hp : (r.event = e2 && r.user = u2) = false := by
        cases hb : (r.event = e2 && r.user = u2)
        · rfl
        · have hb2 : r.event = e2 ∧ r.user = u2 := by simpa using hb
          exact absurd ⟨hb2.1.symm.trans h1.1, hb2.2.symm.trans h1.2⟩ h
      simp only [review_upsert, if_pos h1]
      simp [lookupReview, List.find?_cons, hp]
    · cases hp : (r.event = e2 && r.user = u2) <;>
        simp [lookupReview, review_upsert, h1, hp,
          List.find?_cons] at ih ⊢ <;>
        exact ih

/-- The created flag of `review_upsert` is true exactly when no row
with the key existed. -/
theorem review_ru_created (eid uid : Nat) (n : Int) (cm : String)
    (now : Int) (store : List Review) :
    (review_upsert eid uid n cm now store).2 =
      !(lookupReview eid uid store).isSome := by
  induction store with
  | nil => simp [lookupReview, review_upsert]
  | cons r rs ih =>
    by_cases h : r.event = eid ∧ r.user = uid
    · simp [lookupReview, review_upsert, h, h.1, h.2, List.find?_cons]
    · have hp : (r.event = eid && r.user = uid) = false := by
        cases hb : (r.event = eid && r.user = uid)
        · rfl
        · exact absurd (by simpa using hb) h
      simp [lookupReview, review_upsert, h, hp, List.find?_cons] at ih ⊢
      exact ih

/-- Every row of an upserted review table either carries the upserted
key or was already present. -/
theorem review_ru_mem (eid uid : Nat) (n : Int) (cm : String) (now : Int)
    (store : List Review) :
    ∀ x ∈ (review_upsert eid uid n cm now store).1,
      (x.event = eid ∧ x.user = uid) ∨ x ∈ store := by
  induction store with
  | nil =>
    intro x hx
    simp only [review_upsert, List.mem_singleton] at hx
    subst hx
    exact Or.inl ⟨rfl, rfl⟩
  | cons r rs ih =>
    intro x hx
    by_cases h : r.event = eid ∧ r.user = uid
    · simp only [review_upsert, if_pos h] at hx
      rcases List.mem_cons.1 hx with h1 | h1
      · subst h1
        exact Or.inl ⟨h.1, h.2⟩
      · exact Or.inr (List.mem_cons_of_mem _ h1)
    · simp only [review_upsert, if_neg h] at hx
      rcases List.mem_cons.1 hx with h1 | h1
      · subst h1
        exact Or.inr (List.mem_cons_self _ _)
      · rcases ih x h1 with h2 | h2
        · exact Or.inl h2
        · exact Or.inr (List.mem_cons_of_mem _ h2)

/-- `review_upsert` preserves the `(event, user)` uniqueness invariant
of the review table. -/
theorem review_ru_unique (eid uid : Nat) (n : Int) (cm : String)
    (now : Int) (store : List Review) (h : ReviewUnique store) :
    ReviewUnique (review_upsert eid uid n cm now store).1 := by
  induction store with
  | nil => simp [review_upsert, ReviewUnique]
  | cons r rs ih =>
    simp only [ReviewUnique, List.pairwise_cons] at h
    by_cases h1 : r.event = eid ∧ r.user = uid
    · simp only [ReviewUnique, review_upsert, if_pos h1,
        List.pairwise_cons]
      exact ⟨fun x hx => h.1 x hx, h.2⟩
    · simp only [ReviewUnique, review_upsert, if_neg h1,
        List.pairwise_cons]
      refine ⟨fun x hx => ?_, ih h.2⟩
      rcases review_ru_mem eid uid n cm now rs x hx with h2 | h2
      · exact fun hc => h1 ⟨hc.1.trans h2.1, hc.2.trans h2.2⟩
      · exact h.1 x h2

/-- When no row carries the key, the review upsert appends a fresh row
with `created_at = now` at the end of the table. -/
theorem review_ru_of_none (eid uid : Nat) (n : Int) (cm : String)
    (now : Int) (store : List Review)
    (h : lookupReview eid uid store = none) :
    review_upsert eid uid n cm now store =
      (store ++ [⟨eid, uid, n, cm, now⟩], true) := by
  induction store with
  | nil => simp [review_upsert]
  | cons r rs ih =>
    simp only [lookupReview, List.find?_cons] at h
    cases hb : (r.event = eid && r.user = uid) with
    | true =>
      simp [hb] at h
    | false =>
      simp only [hb] at h
      have hnp : ¬(r.event = eid ∧ r.user = uid) := by
        intro hc
        rw [hc.1, hc.2] at hb
        simp at hb
      have ih2 := ih h
      simp only [review_upsert, if_neg hnp, ih2]
      simp

/-- A valid rating reaches the review upsert. -/
theorem post_review_ok (e : Event) (u : Nat) (rating : Option String)
    (comment : String) (now : Int) (store : List Review) (n : Int)
    (hn : pyInt rating = some n) (hr : ¬(n < 1 ∨ n > 5)) :
    post_review e u rating comment now store =
      .ok (review_upsert e.id u n (pyStrip comment) now store) := by
  unfold post_review
  simp only [hn]
  rw [if_neg hr]

/-- A rejected review post leaves the table unchanged. -/
theorem reviewStep_of_bad (store : List Review) (c : ReviewCall)
    (hc : reviewCallOk c = false) : reviewStep store c = store := by
  unfold reviewStep post_review
  unfold reviewCallOk at hc
  cases hn : pyInt c.rating with
  | none => rfl
  | some n =>
    simp only [hn] at hc
    have hr : n < 1 ∨ n > 5 := by
      by_cases h : n < 1 ∨ n > 5
      · exact h
      · simp [h] at hc
    simp [hr]

/-- A successful review post replaces the table by the upserted one. -/
theorem reviewStep_of_ok (store : List Review) (c : ReviewCall) (n : Int)
    (hn : pyInt c.rating = some n) (hr : ¬(n < 1 ∨ n > 5)) :
    reviewStep store c =
      (review_upsert c.event.id c.user n (pyStrip c.comment) c.now
        store).1 := by
  rw [reviewStep,
    post_review_ok c.event c.user c.rating c.comment c.now store n hn hr]

/-- After any sequence of boundary review posts, the rating and
comment stored at a key are those of the last successful post on that
key, untouched when no successful post targeted the key. -/
theorem applyReviews_lookup (eid uid : Nat) (calls : List ReviewCall) :
    ∀ (store : List Review),
    (lookupReview eid uid (applyReviews store calls)).map
        (fun r => (r.rating, r.comment)) =
      match (goodReviewCalls eid uid calls).getLast? with
      | some c => reviewCallVal c
      | none =>
        (lookupReview eid uid store).map (fun r => (r.rating, r.comment)) := by
  induction calls with
  | nil =>
    intro store
    simp [applyReviews, goodReviewCalls]
  | cons c cs ih =>
    intro store
    have hstep : applyReviews store (c :: cs) =
        applyReviews (reviewStep store c) cs := by
      simp [applyReviews]
    rw [hstep]
    by_cases hc : (reviewCallOk c && c.event.id = eid && c.user = uid) = true
    · have hgood : goodReviewCalls eid uid (c :: cs) =
          c :: goodReviewCalls eid uid cs := by
        simp [goodReviewCalls, List.filter_cons, hc]
      rw [hgood, ih (reviewStep store c), List.getLast?_cons]
      have hok : reviewCallOk c = true := by
        simp only [Bool.and_eq_true] at hc
        exact hc.1.1
      have hkey : c.event.id = eid ∧ c.user = uid := by
        simp only [Bool.and_eq_true, decide_eq_true_eq] at hc
        exact ⟨hc.1.2, hc.2⟩
      obtain ⟨n, hn, hr⟩ : ∃ n, pyInt c.rating = some n ∧
          ¬(n < 1 ∨ n > 5) := by
        unfold reviewCallOk at hok
        cases hpn : pyInt c.rating with
        | none =>
          rw [hpn] at hok
          cases hok
        | some n =>
          simp only [hpn] at hok
          by_cases h : n < 1 ∨ n > 5
          · simp [h] at hok
          · exact ⟨n, rfl, h⟩
      cases hgl : (goodReviewCalls eid uid cs).getLast? with
      | some c2 => simp [hgl]
      | none =>
        simp only [hgl, Option.getD_none]
        rw [reviewStep_of_ok store c n hn hr, hkey.1, hkey.2,
          lookupReview_ru_self]
        simp only [reviewCallVal, hn]
        rw [if_neg hr]
        cases lookupReview eid uid store <;> rfl
    · have hgood : goodReviewCalls eid uid (c :: cs) =
          goodReviewCalls eid uid cs := by
        have hcf : (reviewCallOk c && c.event.id = eid && c.user = uid)
            = false := Bool.eq_false_iff.2 hc
        simp [goodReviewCalls, List.filter_cons, hcf]
      rw [hgood, ih (reviewStep store c)]
      cases hgl : (goodReviewCalls eid uid cs).getLast? with
      | some c2 => simp [hgl]
      | none =>
        simp only [hgl]
        cases hok : reviewCallOk c with
        | false => rw [reviewStep_of_bad store c hok]
        | true =>
          obtain ⟨n, hn, hr⟩ : ∃ n, pyInt c.rating = some n ∧
              ¬(n < 1 ∨ n > 5) := by
            unfold reviewCallOk at hok
            cases hpn : pyInt c.rating with
            | none =>
              rw [hpn] at hok
              cases hok
            | some n =>
              simp only [hpn] at hok
              by_cases h : n < 1 ∨ n > 5
              · simp [h] at hok
              · exact ⟨n, rfl, h⟩
          have hkey : ¬(eid = c.event.id ∧ uid = c.user) := by
            intro hk
            apply hc
            simp [hok, hk.1.symm, hk.2.symm]
          rw [reviewStep_of_ok store c n hn hr,
            lookupReview_ru_other _ _ _ _ _ _ _ _ hkey]

/-- The whole-table transition of a boundary review post keeps the
uniqueness invariant. -/
theorem reviewStep_unique (store : List Review) (c : ReviewCall)
    (h : ReviewUnique store) : ReviewUnique (reviewStep store c) := by
  cases hok : reviewCallOk c with
  | false =>
    rw [reviewStep_of_bad store c hok]
    exact h
  | true =>
    obtain ⟨n, hn, hr⟩ : ∃ n, pyInt c.rating = some n ∧
        ¬(n < 1 ∨ n > 5) := by
      unfold reviewCallOk at hok
      cases hpn : pyInt c.rating with
      | none =>
        rw [hpn] at hok
        cases hok
      | some n =>
        simp only [hpn] at hok
        by_cases hb : n < 1 ∨ n > 5
        · simp [hb] at hok
        · exact ⟨n, rfl, hb⟩
    rw [reviewStep_of_ok store c n hn hr]
    exact review_ru_unique _ _ _ _ _ _ h

/-- After any sequence of boundary review posts the table still
satisfies the `(event, user)` uniqueness invariant. -/
theorem applyReviews_unique (calls : List ReviewCall) :
    ∀ (store : List Review), ReviewUnique store →
      ReviewUnique (applyReviews store calls) := by
  induction calls with
  | nil =>
    intro store h
    exact h
  | cons c cs ih =>
    intro store h
    have hstep : applyReviews store (c :: cs) =
        applyReviews (reviewStep store c) cs := by
      simp [applyReviews]
    rw [hstep]
    exact ih _ (reviewStep_unique store c h)

/-- Under the uniqueness invariant, at most one review row matches any
`(event, user)` key. -/
theorem review_unique_filter_le_one (store : List Review)
    (h : ReviewUnique store) (eid uid : Nat) :
    (store.filter (fun r => r.event = eid && r.user = uid)).length ≤ 1 := by
  induction store with
  | nil => simp
  | cons r rs ih =>
    simp only [ReviewUnique, List.pairwise_cons] at h
    by_cases hp : (r.event = eid && r.user = uid) = true
    · have hkey : r.event = eid ∧ r.user = uid := by simpa using hp
      have hrest : rs.filter (fun r => r.event = eid && r.user = uid)
          = [] := by
        rw [List.filter_eq_nil_iff]
        intro x hx hc
        have hc2 : x.event = eid ∧ x.user = uid := by simpa using hc
        exact h.1 x hx
          ⟨hkey.1.trans hc2.1.symm, hkey.2.trans hc2.2.symm⟩
      simp [List.filter_cons, hp, hrest]
    · have hpf : (r.event = eid && r.user = uid) = false :=
        Bool.eq_false_iff.2 hp
      simp only [List.filter_cons, hpf]
      simp only [Bool.false_eq_true, if_false]
      exact ih h.2

/-- C3 counterexample: through the API entry point
(`EventViewSet.reviews`, POST), posting rating 3 and then rating 4 on
the same event by the same user does not leave one row with rating 4:
the second post is rejected by the unique constraint
(`IntegrityError`) and the stored rating remains 3 — the API path is
not an upsert. -/
theorem reviews_post_not_upsert :
    reviews_post ⟨1, "E", "", 1, "", 0, 1, true, [], 0⟩ 2 (some "3") ""
        10 [] = .ok [⟨1, 2, 3, "", 10⟩] ∧
      reviews_post ⟨1, "E", "", 1, "", 0, 1, true, [], 0⟩ 2 (some "4") ""
        20 [⟨1, 2, 3, "", 10⟩] = .error .IntegrityError ∧
      (lookupReview 1 2 [⟨1, 2, 3, "", 10⟩]).map Review.rating = some 3 :=
  ⟨rfl, rfl, rfl⟩

/-- C3 (amended): the frontend `post_review` is an upsert keyed by
`(event, user)` exactly like `set_rsvp` — after any sequence of posts
with valid ratings at most one review row exists per pair, carrying
the rating and stripped comment of the latest successful post; an
existing row is overwritten in place (`created_at` unchanged), a
missing one freshly created — whereas the API reviews POST endpoint
always INSERTs and errors on a duplicate (see the counterexample). -/
theorem post_review_upsert_spec (store : List Review)
    (hU : ReviewUnique store) :
    (∀ calls, ReviewUnique (applyReviews store calls)) ∧
    (∀ calls eid uid,
        ((applyReviews store calls).filter
            (fun r => r.event = eid && r.user = uid)).length ≤ 1) ∧
    (∀ calls eid uid c,
        (goodReviewCalls eid uid calls).getLast? = some c →
        (lookupReview eid uid (applyReviews store calls)).map
            (fun r => (r.rating, r.comment)) = reviewCallVal c) ∧
    (∀ (e : Event) (u : Nat) (rating : Option String) (comment : String)
        (now : Int) (n : Int),
        pyInt rating = some n → 1 ≤ n → n ≤ 5 →
        (∀ r, lookupReview e.id u store = some r →
            post_review e u rating comment now store =
              .ok ((review_upsert e.id u n (pyStrip comment) now store).1,
                false) ∧
            lookupReview e.id u
                (review_upsert e.id u n (pyStrip comment) now store).1 =
              some { r with rating := n, comment := pyStrip comment }) ∧
        (lookupReview e.id u store = none →
            post_review e u rating comment now store =
              .ok (store ++ [⟨e.id, u, n, pyStrip comment, now⟩], true))) := by
  refine ⟨fun calls => applyReviews_unique calls store hU,
    fun calls eid uid =>
      review_unique_filter_le_one _ (applyReviews_unique calls store hU)
        eid uid,
    fun calls eid uid c hlast => ?_,
    fun e u rating comment now n hn h1 h5 => ?_⟩
  · rw [applyReviews_lookup eid uid calls store, hlast]
  · have hr : ¬(n < 1 ∨ n > 5) := by omega
    constructor
    · intro r hr2
      refine ⟨?_, ?_⟩
      · rw [post_review_ok e u rating comment now store n hn hr]
        have hcreated :
            (review_upsert e.id u n (pyStrip comment) now store).2 =
              false := by
          rw [review_ru_created, hr2]
          rfl
        rw [← hcreated]
      · rw [lookupReview_ru_self, hr2]
    · intro hnone
      rw [post_review_ok e u rating comment now store n hn hr,
        review_ru_of_none e.id u n (pyStrip comment) now store hnone]

/-- Witness for the amended C3 on a concrete run: posting rating 3
then rating 4 on the same event through the frontend leaves one row
holding rating 4, and the replayed second post overwrites in place
with `created_at` preserved. -/
theorem post_review_upsert_spec_witness :
    (lookupReview 1 2 (applyReviews []
        [⟨⟨1, "E", "", 1, "", 0, 1, true, [], 0⟩, 2, some "3", "ok", 10⟩,
          ⟨⟨1, "E", "", 1, "", 0, 1, true, [], 0⟩, 2, some "4", "better",
            20⟩])).map (fun r => (r.rating, r.comment)) =
        some (4, "better") ∧
      post_review ⟨1, "E", "", 1, "", 0, 1, true, [], 0⟩ 2 (some "4")
          "better" 20 [⟨1, 2, 3, "ok", 10⟩] =
        .ok ([⟨1, 2, 4, "better", 10⟩], false) := by
  constructor
  · have h := (post_review_upsert_spec [] (by simp [ReviewUnique])).2.2.1
      [⟨⟨1, "E", "", 1, "", 0, 1, true, [], 0⟩, 2, some "3", "ok", 10⟩,
        ⟨⟨1, "E", "", 1, "", 0, 1, true, [], 0⟩, 2, some "4", "better",
          20⟩] 1 2
      ⟨⟨1, "E", "", 1, "", 0, 1, true, [], 0⟩, 2, some "4", "better", 20⟩
      (by decide)
    rw [h]
    rfl
  · have h := ((post_review_upsert_spec [⟨1, 2, 3, "ok", 10⟩]
        (by simp [ReviewUnique])).2.2.2
      ⟨1, "E", "", 1, "", 0, 1, true, [], 0⟩ 2 (some "4") "better" 20 4
      (by decide) (by decide) (by decide)).1 ⟨1, 2, 3, "ok", 10⟩
      (by decide)
    rw [h.1]
    rfl

/-- C4 counterexample: on a concrete private event, a non-organizer
non-invited authenticated user is rejected with `Forbidden` by
`set_rsvp`, but the same user's `post_review` succeeds and stores a
review — reviews are not gated by the visibility rule. -/
theorem post_review_no_visibility_gate :
    set_rsvp ⟨1, "E", "", 1, "", 0, 1, false, [], 0⟩ 2 "Going" 10 [] =
        .error .Forbidden ∧
      post_review ⟨1, "E", "", 1, "", 0, 1, false, [], 0⟩ 2 (some "5")
          "c" 10 [] = .ok ([⟨1, 2, 5, "c", 10⟩], true) ∧
      reviews_post ⟨1, "E", "", 1, "", 0, 1, false, [], 0⟩ 2 (some "5")
          "c" 10 [] = .ok [⟨1, 2, 5, "c", 10⟩] :=
  ⟨rfl, rfl, rfl⟩

/-- C4 (amended): the visibility rule gates RSVPs but not reviews —
for every private event and every authenticated user who is neither
organizer nor invited, `set_rsvp` fails with `Forbidden` on any ledger
and any status, while `post_review` with any valid rating succeeds and
upserts the review (no review-specific visibility gate exists). -/
theorem private_event_act_gate (e : Event) (u : Nat)
    (hpub : e.is_public = false) (horg : u ≠ e.organizer)
    (hinv : u ∉ e.invited_users) :
    (∀ (str : String) (now : Int) (store : List RSVP),
        set_rsvp e u str now store = .error .Forbidden) ∧
    (∀ (rating : Option String) (n : Int) (comment : String) (now : Int)
        (store : List Review),
        pyInt rating = some n → 1 ≤ n → n ≤ 5 →
        post_review e u rating comment now store =
          .ok (review_upsert e.id u n (pyStrip comment) now store)) := by
  constructor
  · intro str now store
    apply set_rsvp_forbidden
    have hc : e.invited_users.contains u = false := by
      cases hb : e.invited_users.contains u
      · rfl
      · exact absurd (by simpa using hb) hinv
    rw [can_act, hpub, hc]
    simp [horg]
  · intro rating n comment now store hn h1 h5
    exact post_review_ok e u rating comment now store n hn (by omega)

/-- Witness for the amended C4 at a concrete private event and
outsider user. -/
theorem private_event_act_gate_witness :
    set_rsvp ⟨1, "E", "", 1, "", 0, 1, false, [3], 0⟩ 2 "Maybe" 10
        [] = .error .Forbidden ∧
      post_review ⟨1, "E", "", 1, "", 0, 1, false, [3], 0⟩ 2 (some "2")
          " hi " 10 [] =
        .ok (review_upsert 1 2 2 (pyStrip " hi ") 10 []) :=
  ⟨(private_event_act_gate ⟨1, "E", "", 1, "", 0, 1, false, [3], 0⟩ 2
      rfl (by decide) (by decide)).1 "Maybe" 10 [],
    (private_event_act_gate ⟨1, "E", "", 1, "", 0, 1, false, [3], 0⟩ 2
      rfl (by decide) (by decide)).2 (some "2") 2 " hi " 10 []
      (by decide) (by decide) (by decide)⟩

/-- The in-place save of `update_rsvp` replaces exactly the found row,
leaving the rows before and after it untouched. -/
theorem rsvp_save_status_decomp (eid uid : Nat) (st : RSVPStatus) :
    ∀ (store : List RSVP) (r : RSVP),
      lookupRsvp eid uid store = some r →
      ∃ l1 l2, store = l1 ++ r :: l2 ∧
        (∀ x ∈ l1, ¬(x.event = eid ∧ x.user = uid)) ∧
        rsvp_save_status eid uid st store =
          l1 ++ { r with status := st } :: l2 := by
  intro store
  induction store with
  | nil =>
    intro r hr
    simp [lookupRsvp] at hr
  | cons x xs ih =>
    intro r hr
    by_cases h : x.event = eid ∧ x.user = uid
    · have hp : (x.event = eid && x.user = uid) = true := by
        simp [h.1, h.2]
      simp only [lookupRsvp, List.find?_cons, hp, Option.some.injEq] at hr
      subst hr
      refine ⟨[], xs, by simp, by simp, ?_⟩
      simp [rsvp_save_status, h]
    · have hp : (x.event = eid && x.user = uid) = false := by
        cases hb : (x.event = eid && x.user = uid)
        · rfl
        · exact absurd (by simpa using hb) h
      simp only [lookupRsvp, List.find?_cons, hp] at hr
      obtain ⟨l1, l2, heq, hl1, hsave⟩ := ih r hr
      refine ⟨x :: l1, l2, by simp [heq], ?_, ?_⟩
      · intro y hy
        rcases List.mem_cons.1 hy with h1 | h1
        · subst h1
          exact h
        · exact hl1 y h1
      · simp [rsvp_save_status, h, hsave]

/-- C7: a successful `update_rsvp` mutates only the `status` field of
the target RSVP row in place: the row keeps its `event`, `user` and
`created_at`, and every other row of the ledger is carried over
unchanged in its position. -/
theorem update_rsvp_frame (e : Event) (targetUid actor : Nat)
    (str : String) (st : RSVPStatus) (store : List RSVP) (r : RSVP)
    (hr : lookupRsvp e.id targetUid store = some r)
    (hperm : actor = r.user ∨ actor = e.organizer)
    (hst : parseStatus str = some st) :
    ∃ l1 l2, store = l1 ++ r :: l2 ∧
      (∀ x ∈ l1, ¬(x.event = e.id ∧ x.user = targetUid)) ∧
      update_rsvp e targetUid actor str store =
        .ok (l1 ++ { r with status := st } :: l2) := by
  obtain ⟨l1, l2, heq, hl1, hsave⟩ :=
    rsvp_save_status_decomp e.id targetUid st store r hr
  refine ⟨l1, l2, heq, hl1, ?_⟩
  unfold update_rsvp
  rw [hr]
  dsimp only
  have hg : (actor != r.user && actor != e.organizer) = false := by
    rcases hperm with h | h <;> simp [h]
  rw [hg]
  simp only [Bool.false_eq_true, if_false]
  rw [hst]
  dsimp only
  rw [hsave]

/-- Witness for C7: the organizer updates a member's RSVP on a
concrete ledger; only that row's status changes. -/
theorem update_rsvp_frame_witness :
    ∃ l1 l2,
      [(⟨2, 9, .Going, 4⟩ : RSVP), ⟨1, 2, .Going, 5⟩] =
          l1 ++ (⟨1, 2, .Going, 5⟩ : RSVP) :: l2 ∧
        (∀ x ∈ l1, ¬(x.event = 1 ∧ x.user = 2)) ∧
        update_rsvp ⟨1, "E", "", 7, "", 0, 1, true, [], 0⟩ 2 7 "Maybe"
            [⟨2, 9, .Going, 4⟩, ⟨1, 2, .Going, 5⟩] =
          .ok (l1 ++ (⟨1, 2, .Maybe, 5⟩ : RSVP) :: l2) :=
  update_rsvp_frame ⟨1, "E", "", 7, "", 0, 1, true, [], 0⟩ 2 7 "Maybe"
    .Maybe [⟨2, 9, .Going, 4⟩, ⟨1, 2, .Going, 5⟩] ⟨1, 2, .Going, 5⟩
    (by decide) (Or.inr rfl) (by decide)

/-- C8: `post_review` fails with `InvalidRating` exactly when the
rating does not parse as an integer in `[1, 5]`; on success the stored
comment is the posted comment stripped of surrounding whitespace
(empty allowed). -/
theorem post_review_validation (e : Event) (u : Nat)
    (rating : Option String) (comment : String) (now : Int)
    (store : List Review) :
    (post_review e u rating comment now store = .error .InvalidRating ↔
        ¬∃ n, pyInt rating = some n ∧ 1 ≤ n ∧ n ≤ 5) ∧
    (∀ out, post_review e u rating comment now store = .ok out →
        ∃ n, pyInt rating = some n ∧ 1 ≤ n ∧ n ≤ 5 ∧
          out = review_upsert e.id u n (pyStrip comment) now store ∧
          (lookupReview e.id u out.1).map Review.comment =
            some (pyStrip comment)) := by
  cases hn : pyInt rating with
  | none =>
    constructor
    · constructor
      · intro _ ⟨n, hn2, _, _⟩
        cases hn2
      · intro _
        unfold post_review
        rw [hn]
    · intro out hout
      unfold post_review at hout
      rw [hn] at hout
      cases hout
  | some n =>
    by_cases hr : n < 1 ∨ n > 5
    · have herr : post_review e u rating comment now store =
          .error .InvalidRating := by
        unfold post_review
        simp only [hn]
        rw [if_pos hr]
      constructor
      · rw [herr]
        constructor
        · intro _ ⟨m, hm, h1, h5⟩
          injection hm with hm2
          omega
        · intro _
          rfl
      · intro out hout
        rw [herr] at hout
        cases hout
    · have hok := post_review_ok e u rating comment now store n hn hr
      constructor
      · rw [hok]
        constructor
        · intro hcontr
          cases hcontr
        · intro hne
          exact absurd ⟨n, rfl, by omega, by omega⟩ hne
      · intro out hout
        rw [hok] at hout
        cases hout
        refine ⟨n, rfl, by omega, by omega, rfl, ?_⟩
        rw [lookupReview_ru_self]
        cases lookupReview e.id u store <;> rfl

/-- Witness for C8: a padded rating string ` 4 ` parses, and the
stored comment of the resulting review is the stripped ` hi `. -/
theorem post_review_validation_witness :
    ∃ n, pyInt (some " 4 ") = some n ∧ 1 ≤ n ∧ n ≤ 5 ∧
      (([⟨1, 2, 4, "hi", 10⟩], true) : List Review × Bool) =
        review_upsert 1 2 n (pyStrip " hi ") 10 [] ∧
      (lookupReview 1 2 ([⟨1, 2, 4, "hi", 10⟩] : List Review)).map
          Review.comment = some (pyStrip " hi ") :=
  (post_review_validation ⟨1, "E", "", 1, "", 0, 1, true, [], 0⟩ 2
      (some " 4 ") " hi " 10 []).2 ([⟨1, 2, 4, "hi", 10⟩], true) rfl

/-- C9: event creation and update enforce `start_time < end_time` at
write time — the serializer and the frontend form both reject a write
whose effective start is not strictly before its end with a
`ValidationError` and store nothing, and every store whose events all
satisfy the invariant still satisfies it after any successful create
or update. -/
theorem event_time_window_spec :
    (∀ (org nid : Nat) (t d l : String) (s en : Int) (pub : Bool)
        (inv : List Nat) (now : Int) (store : List Event),
        s ≥ en →
        event_create org nid t d l s en pub inv now store =
          .error .ValidationError) ∧
    (∀ (inst : Event) (ps pe : Option Int),
        ps.getD inst.start_time ≥ pe.getD inst.end_time →
        event_update inst ps pe = .error .ValidationError) ∧
    (∀ (org nid : Nat) (t : String) (s en : Int) (pub : Bool)
        (now : Int) (store : List Event),
        ¬pyStrip t = "" → s ≥ en →
        create_event_view org nid t (some s) (some en) pub now store =
          .error .ValidationError) ∧
    (∀ store, EventTimesOk store →
        (∀ (org nid : Nat) (t d l : String) (s en : Int) (pub : Bool)
            (inv : List Nat) (now : Int) (store2 : List Event),
            event_create org nid t d l s en pub inv now store = .ok store2 →
            EventTimesOk store2) ∧
        (∀ (org nid : Nat) (t : String) (sp ep : Option Int) (pub : Bool)
            (now : Int) (store2 : List Event),
            create_event_view org nid t sp ep pub now store = .ok store2 →
            EventTimesOk store2)) ∧
    (∀ (inst : Event) (ps pe : Option Int) (inst2 : Event),
        event_update inst ps pe = .ok inst2 →
        inst2.start_time < inst2.end_time) := by
  refine ⟨?_, ?_, ?_, ?_, ?_⟩
  · intro org nid t d l s en pub inv now store h
    unfold event_create event_validate effectiveTime
    dsimp only
    rw [if_pos h]
  · intro inst ps pe h
    unfold event_update event_validate effectiveTime
    cases ps <;> cases pe <;> dsimp only <;>
      simp only [Option.getD_some, Option.getD_none] at h <;>
      rw [if_pos h]
  · intro org nid t s en pub now store ht h
    unfold create_event_view
    rw [if_neg ht]
    dsimp only
    rw [if_pos h]
  · intro store hstore
    constructor
    · intro org nid t d l s en pub inv now store2 hok
      unfold event_create event_validate effectiveTime at hok
      dsimp only at hok
      by_cases h : s ≥ en
      · rw [if_pos h] at hok
        cases hok
      · rw [if_neg h] at hok
        cases hok
        intro x hx
        rcases List.mem_append.1 hx with h1 | h1
        · exact hstore x h1
        · rcases List.mem_singleton.1 h1 with h2
          subst h2
          simpa using by omega
    · intro org nid t sp ep pub now store2 hok
      unfold create_event_view at hok
      by_cases ht : pyStrip t = ""
      · rw [if_pos ht] at hok
        cases hok
      · rw [if_neg ht] at hok
        cases sp with
        | none =>
          cases ep <;> cases hok
        | some s =>
          cases ep with
          | none => cases hok
          | some en =>
            dsimp only at hok
            by_cases h : s ≥ en
            · rw [if_pos h] at hok
              cases hok
            · rw [if_neg h] at hok
              cases hok
              intro x hx
              rcases List.mem_append.1 hx with h1 | h1
              · exact hstore x h1
              · rcases List.mem_singleton.1 h1 with h2
                subst h2
                simpa using by omega
  · intro inst ps pe inst2 hok
    unfold event_update event_validate effectiveTime at hok
    cases ps with
    | none =>
      cases pe with
      | none =>
        dsimp only at hok
        by_cases h : inst.start_time ≥ inst.end_time
        · rw [if_pos h] at hok
          cases hok
        · rw [if_neg h] at hok
          cases hok
          simpa using by omega
      | some pe2 =>
        dsimp only at hok
        by_cases h : inst.start_time ≥ pe2
        · rw [if_pos h] at hok
          cases hok
        · rw [if_neg h] at hok
          cases hok
          simpa using by omega
    | some ps2 =>
      cases pe with
      | none =>
        dsimp only at hok
        by_cases h : ps2 ≥ inst.end_time
        · rw [if_pos h] at hok
          cases hok
        · rw [if_neg h] at hok
          cases hok
          simpa using by omega
      | some pe2 =>
        dsimp only at hok
        by_cases h : ps2 ≥ pe2
        · rw [if_pos h] at hok
          cases hok
        · rw [if_neg h] at hok
          cases hok
          simpa using by omega

/-- Witness for C9 at concrete writes: a creation with
`start_time = 10, end_time = 9` is rejected on both paths, and a valid
creation into a well-formed store keeps the invariant. -/
theorem event_time_window_spec_witness :
    event_create 1 1 "T" "" "" 10 9 true [] 0 [] =
        .error .ValidationError ∧
      event_update ⟨1, "T", "", 1, "", 0, 1, true, [], 0⟩ (some 10)
          (some 9) = .error .ValidationError ∧
      create_event_view 1 1 "T" (some 10) (some 9) true 0 [] =
        .error .ValidationError ∧
      EventTimesOk [⟨1, "T", "", 1, "", 0, 1, true, [], 0⟩] :=
  ⟨event_time_window_spec.1 1 1 "T" "" "" 10 9 true [] 0 [] (by omega),
    event_time_window_spec.2.1 ⟨1, "T", "", 1, "", 0, 1, true, [], 0⟩
      (some 10) (some 9) (by simp),
    event_time_window_spec.2.2.1 1 1 "T" 10 9 true 0 [] (by decide)
      (by omega),
    (event_time_window_spec.2.2.2.1 [] (by intro x hx; cases hx)).1
      1 1 "T" "" "" 0 1 true [] 0 _ rfl⟩

end EMS
